/-
Verification of the Tomoji frontend (SolidJS/TypeScript) against its
natural-language specification.  The relevant functions of the source are
shallowly embedded as executable Lean definitions, and the spec claims are
settled as theorems about those definitions.

Source files embedded here:
  frontend/src/components/CaptureModal.tsx
  frontend/src/components/ExportView.tsx
  frontend/src/components/Gallery.tsx
  frontend/src/lib/cookies.ts  (and lib/api.ts, concatenated in the same file)
  frontend/src/index.tsx       (App component)
The backend font builder is not part of the sources; where a claim depends on
it, a definition modelled from the spec is used and marked as such.
-/

import Mathlib

namespace Tomoji

/-! ## ExportView.buttonState (ExportView.tsx, lines 28-47)

The component receives `lastGeneration` and `lastCaptureEdit` as nullable
ISO-timestamp strings and compares them via `new Date(s).getTime()`.  We embed
timestamps as natural numbers (the millisecond epoch values the comparison
operates on), with `Option` for the nullable values. -/

structure ButtonState where
  text : String
  disabled : Bool
deriving DecidableEq

/-- Embedding of `buttonState` from ExportView.tsx: decides the label and
enabledness of the Generate/Regenerate button from the two timestamps. -/
def buttonState (lastGeneration lastCaptureEdit : Option Nat) : ButtonState :=
  match lastGeneration with
  | none => ⟨"Generate Font", false⟩
  | some genTime =>
    match lastCaptureEdit with
    | none => ⟨"Regenerate Font", true⟩
    | some editTime =>
      if editTime > genTime then ⟨"Regenerate Font", false⟩
      else ⟨"Regenerate Font", true⟩

/-! ## ExportView.handleExport (ExportView.tsx, lines 83-110)

The handler first guards on `capturedCount === 0` and on a falsy session id;
only past both guards does it call the `exportFont` API.  We embed the guard
structure: the result records the error message set (if any) and whether the
export request was issued. -/

structure ExportAttempt where
  errorMsg : Option String
  requested : Bool
deriving DecidableEq

/-- Embedding of the guard logic of `handleExport`: with zero captures it sets
an error and returns before `exportFont`; with a falsy session id likewise;
otherwise the export request is issued. -/
def handleExport (capturedCount : Nat) (sessionId : String) : ExportAttempt :=
  if capturedCount = 0 then
    ⟨some "No emojis captured yet. Go to Gallery and capture some emojis first!", false⟩
  else if sessionId = "" then
    ⟨some "Session not found. Please refresh the page.", false⟩
  else
    ⟨none, true⟩

/-! ## CaptureModal store-touching API calls (CaptureModal.tsx)

Which of the three capture-store API operations (`previewCapture`,
`saveCapture`, `deleteCapture` from lib/api.ts) each CaptureModal handler can
invoke, read off from the call sites:
  handleCapture        (lines 234-260): previewCapture only
  handleUpload         (lines 262-293): previewCapture only
  handleAccept         (lines 343-359): saveCapture only
  handleAcceptAndNext  (lines 361-379): saveCapture only
  handleDelete         (lines 381-388): deleteCapture only -/

inductive ApiCall where
  | previewCapture
  | saveCapture
  | deleteCapture
deriving DecidableEq

def handleCaptureCalls : List ApiCall := [ApiCall.previewCapture]

def handleUploadCalls : List ApiCall := [ApiCall.previewCapture]

def handleAcceptCalls : List ApiCall := [ApiCall.saveCapture]

def handleAcceptAndNextCalls : List ApiCall := [ApiCall.saveCapture]

def handleDeleteCalls : List ApiCall := [ApiCall.deleteCapture]

/-- All CaptureModal handlers that invoke capture-store API operations,
paired with the calls they can make. -/
def captureModalHandlers : List (String × List ApiCall) :=
  [("handleCapture", handleCaptureCalls),
   ("handleUpload", handleUploadCalls),
   ("handleAccept", handleAcceptCalls),
   ("handleAcceptAndNext", handleAcceptAndNextCalls),
   ("handleDelete", handleDeleteCalls)]

/-! ## App.handleClearAll (index.tsx App component, lines 245-259)

After `clearSession` succeeds the handler resets the lifted font state through
four setter calls.  We embed the font-state signals as a record and the
setters as field updates, and `handleClearAll` as their composition. -/

structure FontState where
  fontUrl : Option String
  fontLoaded : Bool
  fontFamilyId : Option String
  localLastGeneration : Option String
deriving DecidableEq

def setFontUrl (v : Option String) (s : FontState) : FontState :=
  { s with fontUrl := v }

def setFontLoaded (v : Bool) (s : FontState) : FontState :=
  { s with fontLoaded := v }

def setFontFamilyId (v : Option String) (s : FontState) : FontState :=
  { s with fontFamilyId := v }

def setLocalLastGeneration (v : Option String) (s : FontState) : FontState :=
  { s with localLastGeneration := v }

/-- Embedding of the font-state effect of `handleClearAll` on the success
path: the four setter calls it performs, in order. -/
def handleClearAll (s : FontState) : FontState :=
  setLocalLastGeneration none (setFontFamilyId none (setFontLoaded false (setFontUrl none s)))

/-! ## Custom-glyph validation (CaptureModal.tsx, lines 48-71)

`extractFirstEmoji` splits its input into grapheme clusters with
`Intl.Segmenter("en", granularity: grapheme)` and returns the first cluster on
which `/\p{Extended_Pictographic}/u.test` succeeds, or the empty string.
`isValidEmoji` accepts exactly the non-empty strings equal to their own
extraction.

We embed strings as `List Char` (a `Char` is one Unicode scalar value) and the
segmenter together with the `Extended_Pictographic` scalar property as an
abstract `GraphemeModel` carrying the UAX #29 laws the code relies on:
segmenting the empty string yields no clusters, the clusters concatenate back
to the input, every cluster is non-empty, and a produced cluster re-segments
to itself. -/

structure GraphemeModel where
  seg : List Char → List (List Char)
  isPicto : Char → Bool
  seg_nil : seg [] = []
  seg_join : ∀ s : List Char, (seg s).flatten = s
  seg_ne_nil : ∀ s g, g ∈ seg s → g ≠ []
  seg_single : ∀ s g, g ∈ seg s → seg g = [g]

/-- The regex test `/\p{Extended_Pictographic}/u.test(g)`: whether the cluster
contains at least one Extended_Pictographic scalar. -/
def containsPicto (M : GraphemeModel) (g : List Char) : Bool :=
  g.any M.isPicto

/-- Embedding of `extractFirstEmoji` from CaptureModal.tsx. -/
def extractFirstEmoji (M : GraphemeModel) (str : List Char) : List Char :=
  if str = [] then []
  else
    match (M.seg str).find? (fun g => containsPicto M g) with
    | some g => g
    | none => []

/-- Embedding of `isValidEmoji` from CaptureModal.tsx. -/
def isValidEmoji (M : GraphemeModel) (str : List Char) : Bool :=
  decide (str ≠ []) && decide (str = extractFirstEmoji M str)

/-- A concrete `GraphemeModel` used to witness the validation theorems: each
scalar is its own cluster, and '!' plays the role of the single
Extended_Pictographic scalar. -/
def scalarSeg : GraphemeModel where
  seg s := s.map (fun c => [c])
  isPicto c := c = '!'
  seg_nil := rfl
  seg_join s := by induction s with
    | nil => rfl
    | cons c t ih => simpa using ih
  seg_ne_nil s g hg := by
    simp only [List.mem_map] at hg
    obtain ⟨c, _, rfl⟩ := hg
    simp
  seg_single s g hg := by
    simp only [List.mem_map] at hg
    obtain ⟨c, _, rfl⟩ := hg
    rfl

/-! ## Settings (index.tsx lines 90-111, CaptureModal.tsx lines 543-554)

The `Settings` interface of lib/api.ts has the four fields below.  The
padding slider is an `<input type="range" min="0" max="100">` whose value is
stored as `parseInt(value) / 100`; we embed the slider value as a natural
number and the padding as a rational. -/

structure Settings where
  padding : ℚ
  keep_background : Bool
  keep_clothes : Bool
  keep_accessories : Bool
deriving DecidableEq

/-- Embedding of `defaultSettings` from index.tsx. -/
def defaultSettings : Settings :=
  { padding := 0
    keep_background := false
    keep_clothes := false
    keep_accessories := true }

/-- Embedding of `loadSettings` from index.tsx: the settings fetched from the
backend on success, the defaults kept when the fetch fails or nothing is
stored. -/
def loadSettings (fetched : Option Settings) : Settings :=
  match fetched with
  | some s => s
  | none => defaultSettings

/-- Embedding of `handlePaddingChange` composed with the slider input handler
of CaptureModal.tsx: the slider yields an integer `n` (0 ≤ n ≤ 100 by the
range control) and the padding becomes `n / 100`. -/
def handlePaddingChange (s : Settings) (n : Nat) : Settings :=
  { s with padding := (n : ℚ) / 100 }

/-! ## Glyph index assignment (Font Assembler) -/

/-- Modelled from the spec: the Font Assembler lives in
backend/services/font_builder.py, which is not among the sources; per spec
section 4.3, glyph index 0 is reserved for the ".notdef" glyph and each capture
entry receives the next glyph index in input order (registry order followed by
custom-glyph insertion order). -/
def assignGlyphIndices (entries : List String) : List (String × Nat) :=
  (".notdef", 0) :: entries.enum.map (fun p => (p.2, p.1 + 1))

/-! ## App.handleNext (index.tsx App component, lines 261-287)

After an accepted capture the handler looks up the current emoji's index with
`findIndex` (−1 when absent, e.g. for a custom emoji), then loops
`i = 1 .. emojis.length` over `(currentIndex + i) % emojis.length` and selects
the first uncaptured emoji; if the loop finds none it closes the modal
(`setSelectedEmoji(null)`, embedded as `none`). -/

/-- Embedding of `handleNext` from index.tsx (result: the emoji selected next,
or `none` when the modal is closed because everything is captured). -/
def handleNext (emojis : List String) (captured : String → Bool) (current : String) :
    Option String :=
  let currentIndex : Int :=
    match emojis.findIdx? (fun e => e == current) with
    | some i => (i : Int)
    | none => -1
  (List.range emojis.length).findSome? (fun (k : Nat) =>
    match emojis.get? ((currentIndex + (k : Int) + 1).toNat % emojis.length) with
    | some nextEmoji => if captured nextEmoji then none else some nextEmoji
    | none => none)

/-- The scan order described by the spec sentence: the emoji list rotated to
start right after the current emoji's index (from the start when the current
emoji is not in the list).  Stated from the claim's words, to be compared with
the embedded `handleNext`. -/
def nextScanOrder (emojis : List String) (current : String) : List String :=
  emojis.rotate
    (match emojis.findIdx? (fun e => e == current) with
     | some i => i + 1
     | none => 0)

/-! ## lib/api.ts handleResponse (lines 25-34 of the api module)

`handleResponse` throws `RateLimitError` on status 429; on any other non-ok
response it parses the body (an unparseable body becoming the empty object)
and throws `new Error(error.detail || errorMessage)`; on an ok response it
returns the parsed JSON body.  We embed the response as the data the function
inspects: the status, the `detail` field of the error-path body (`none` when
the body does not parse or carries no detail), and the parsed ok-path body.
JavaScript `||` takes the right operand on the empty string, which the
embedding renders explicitly. -/

structure HttpResponse where
  status : Nat
  detail : Option String
  body : String
deriving DecidableEq

/-- `Response.ok`: status in the inclusive range 200-299. -/
def respOk (r : HttpResponse) : Bool :=
  decide (200 ≤ r.status) && decide (r.status ≤ 299)

inductive ApiFailure where
  | rateLimit
  | httpError (message : String)
deriving DecidableEq

/-- Embedding of `handleResponse` from lib/api.ts. -/
def handleResponse (r : HttpResponse) (errorMessage : String) : Except ApiFailure String :=
  if r.status = 429 then
    Except.error ApiFailure.rateLimit
  else if respOk r = false then
    Except.error (ApiFailure.httpError
      (match r.detail with
       | some d => if d = "" then errorMessage else d
       | none => errorMessage))
  else
    Except.ok r.body

/-! ## lib/cookies.ts (lines 1-15)

The browser cookie jar is embedded as an ordered list of name/value pairs of
character lists.  Reading `document.cookie` serializes the jar joined by
"; "; writing `document.cookie = s` stores the cookie-pair of `s` (the part
before the first ';', split at the first '=' into name and value), replacing
an existing cookie of the same name and appending otherwise — attributes such
as path and max-age are dropped by the jar.

`getSessionCookie` runs the regex `(^| )tomoji_session=([^;]+)` over the
serialized jar and returns capture group 2 of the first match.  The regex
search is embedded directly for this fixed pattern: positions are tried left
to right; at the string start the `^` alternative tries the pattern in place,
and at every position the ' ' alternative consumes a space and tries the
pattern right after it; group 2 is the maximal non-empty run of non-';'
characters after "tomoji_session=". -/

def SESSION_COOKIE_NAME : List Char := "tomoji_session".data

def COOKIE_MAX_AGE : Nat := 7 * 24 * 60 * 60

/-- The literal part "tomoji_session=" of the session-cookie regex. -/
def sessionPat : List Char := "tomoji_session=".data

/-- One attempt of `tomoji_session=([^;]+)` at the current position: group 2
on success. -/
def matchSessionAt (cs : List Char) : Option (List Char) :=
  if sessionPat.isPrefixOf cs then
    let v := (cs.drop sessionPat.length).takeWhile (fun c => decide (c ≠ ';'))
    if v = [] then none else some v
  else none

/-- Left-to-right search of `(^| )tomoji_session=([^;]+)`: the flag states
whether the current position is the start of the string (where the `^`
alternative applies). -/
def scanSession : Bool → List Char → Option (List Char)
  | _, [] => none
  | atStart, c :: rest =>
    match (if atStart then matchSessionAt (c :: rest) else none) with
    | some v => some v
    | none =>
      match (if c = ' ' then matchSessionAt rest else none) with
      | some v => some v
      | none => scanSession false rest

/-- The `document.cookie` getter: cookie pairs joined by "; ". -/
def serializeJar : List (List Char × List Char) → List Char
  | [] => []
  | [p] => p.1 ++ '=' :: p.2
  | p :: q :: rest => p.1 ++ '=' :: p.2 ++ ';' :: ' ' :: serializeJar (q :: rest)

/-- Embedding of `getSessionCookie` from lib/cookies.ts over the jar model. -/
def getSessionCookie (jar : List (List Char × List Char)) : Option (List Char) :=
  scanSession true (serializeJar jar)

/-- The `document.cookie` setter on the jar: replace the cookie of the same
name in place, or append a new one. -/
def setCookie (jar : List (List Char × List Char)) (name value : List Char) :
    List (List Char × List Char) :=
  if jar.any (fun p => decide (p.1 = name)) then
    jar.map (fun p => if p.1 = name then (name, value) else p)
  else
    jar ++ [(name, value)]

/-- Embedding of `setSessionCookie` from lib/cookies.ts: the assignment string
it writes, parsed by the jar's setter semantics. -/
def setSessionCookie (jar : List (List Char × List Char)) (sessionId : List Char) :
    List (List Char × List Char) :=
  let assignment := SESSION_COOKIE_NAME ++ '=' :: sessionId ++
    ("; path=/; max-age=" ++ toString COOKIE_MAX_AGE ++ "; SameSite=Lax").data
  let pair := assignment.takeWhile (fun c => decide (c ≠ ';'))
  let name := pair.takeWhile (fun c => decide (c ≠ '='))
  let value := pair.drop (name.length + 1)
  setCookie jar name value

/-- A cookie name the browser would have accepted: non-empty, and free of the
characters the serialized jar uses as structure. -/
abbrev GoodName (n : List Char) : Prop :=
  n ≠ [] ∧ ';' ∉ n ∧ ' ' ∉ n ∧ '=' ∉ n

/-- A cookie value the browser would have accepted: cookie-octets exclude ';'
and whitespace (RFC 6265). -/
abbrev GoodValue (v : List Char) : Prop :=
  ';' ∉ v ∧ ' ' ∉ v

/-- A browser-maintained jar: distinct names, all entries well formed. -/
abbrev WellFormedJar (jar : List (List Char × List Char)) : Prop :=
  jar.Pairwise (fun p q => p.1 ≠ q.1) ∧ ∀ p ∈ jar, GoodName p.1 ∧ GoodValue p.2

/-! ## Theorems -/

/-- C2: the export view reports the font artifact stale (the regenerate button
enabled) iff the last capture edit is strictly later than the last generation;
with no generation timestamp it offers initial generation, and with a
generation but no recorded capture edit the button is disabled (up to date). -/
theorem buttonState_staleness (g e : Nat) (eo : Option Nat) :
    buttonState none eo = ⟨"Generate Font", false⟩ ∧
    buttonState (some g) none = ⟨"Regenerate Font", true⟩ ∧
    ((buttonState (some g) (some e)).disabled = false ↔ g < e) ∧
    (buttonState (some g) (some e)).text = "Regenerate Font" := by
  refine ⟨rfl, rfl, ?_, ?_⟩
  · by_cases h : e > g <;> simp [buttonState, h]
  · by_cases h : e > g <;> simp [buttonState, h]

/-- C3: with zero captured glyphs the export attempt fails with an error and
no export request is issued; the export request is issued only when at least
one capture exists. -/
theorem handleExport_empty_guard (cnt : Nat) (sid : String) :
    handleExport 0 sid =
      ⟨some "No emojis captured yet. Go to Gallery and capture some emojis first!", false⟩ ∧
    ((handleExport cnt sid).requested = true → 1 ≤ cnt) := by
  refine ⟨rfl, ?_⟩
  intro h
  rcases Nat.eq_zero_or_pos cnt with rfl | h1
  · simp [handleExport] at h
  · exact h1

/-- Witness for the export guard theorem at a concrete attempt. -/
theorem handleExport_empty_guard_witness :
    handleExport 0 "abcd1234" =
      ⟨some "No emojis captured yet. Go to Gallery and capture some emojis first!", false⟩ ∧
    1 ≤ 1 :=
  ⟨(handleExport_empty_guard 1 "abcd1234").1,
   (handleExport_empty_guard 1 "abcd1234").2 (by decide)⟩

/-- C4: the preview paths (webcam capture and file upload) invoke only the
preview operation and never the save operation; among every CaptureModal
handler touching the capture store, only the two accept handlers invoke
saveCapture. -/
theorem preview_never_saves :
    ApiCall.saveCapture ∉ handleCaptureCalls ∧
    ApiCall.saveCapture ∉ handleUploadCalls ∧
    handleCaptureCalls = [ApiCall.previewCapture] ∧
    handleUploadCalls = [ApiCall.previewCapture] ∧
    ∀ p ∈ captureModalHandlers, ApiCall.saveCapture ∈ p.2 →
      p.1 = "handleAccept" ∨ p.1 = "handleAcceptAndNext" := by
  refine ⟨by decide, by decide, rfl, rfl, ?_⟩
  decide

/-- Witness for the save-path theorem at a concrete handler. -/
theorem preview_never_saves_witness :
    ("handleAccept", handleAcceptCalls).1 = "handleAccept" ∨
    ("handleAccept", handleAcceptCalls).1 = "handleAcceptAndNext" :=
  preview_never_saves.2.2.2.2 ("handleAccept", handleAcceptCalls) (by decide) (by decide)

/-- C5: after a successful clear of the session's captures, the cached font
state is invalidated for any prior state: font URL, font family id and last
generation are null and the loaded flag is false. -/
theorem handleClearAll_invalidates (s : FontState) :
    handleClearAll s =
      { fontUrl := none, fontLoaded := false, fontFamilyId := none,
        localLastGeneration := none } := rfl

/-- C6: a Settings value is determined by exactly its four fields; the padding
control yields n/100 with 0 ≤ n ≤ 100, hence a padding in [0,1]; the defaults
are padding 0, keep_background false, keep_clothes false, keep_accessories
true, and they are used whenever stored settings are absent or fail to load. -/
theorem settings_shape (s a b : Settings) (n : Nat) (hn : n ≤ 100) :
    (a.padding = b.padding → a.keep_background = b.keep_background →
      a.keep_clothes = b.keep_clothes → a.keep_accessories = b.keep_accessories → a = b) ∧
    loadSettings none = defaultSettings ∧
    loadSettings (some s) = s ∧
    defaultSettings = ⟨0, false, false, true⟩ ∧
    (handlePaddingChange s n).padding = (n : ℚ) / 100 ∧
    0 ≤ (handlePaddingChange s n).padding ∧
    (handlePaddingChange s n).padding ≤ 1 ∧
    (handlePaddingChange s n).keep_background = s.keep_background ∧
    (handlePaddingChange s n).keep_clothes = s.keep_clothes ∧
    (handlePaddingChange s n).keep_accessories = s.keep_accessories := by
  refine ⟨?_, rfl, rfl, rfl, rfl, ?_, ?_, rfl, rfl, rfl⟩
  · intro h1 h2 h3 h4
    cases a
    cases b
    simp_all
  · show (0 : ℚ) ≤ (n : ℚ) / 100
    positivity
  · show (n : ℚ) / 100 ≤ 1
    rw [div_le_one (by norm_num)]
    exact_mod_cast hn

/-- Witness for the settings theorem at a concrete slider value. -/
theorem settings_shape_witness :
    defaultSettings = defaultSettings ∧
    0 ≤ (handlePaddingChange defaultSettings 50).padding ∧
    (handlePaddingChange defaultSettings 50).padding ≤ 1 :=
  ⟨(settings_shape defaultSettings defaultSettings defaultSettings 50 (by decide)).1
      rfl rfl rfl rfl,
   (settings_shape defaultSettings defaultSettings defaultSettings 50
      (by decide)).2.2.2.2.2.1,
   (settings_shape defaultSettings defaultSettings defaultSettings 50
      (by decide)).2.2.2.2.2.2.1⟩

/-- C7: in every assembled font, glyph index 0 is the reserved .notdef glyph
and entry i of the input order (registry order followed by custom-glyph
insertion order) receives glyph index i + 1. -/
theorem assignGlyphIndices_spec (entries : List String) (i : Nat) :
    (assignGlyphIndices entries).head? = some (".notdef", 0) ∧
    (assignGlyphIndices entries).get? (i + 1) =
      (entries.get? i).map (fun e => (e, i + 1)) ∧
    (assignGlyphIndices entries).length = entries.length + 1 := by
  refine ⟨rfl, ?_, by simp [assignGlyphIndices]⟩
  show (entries.enum.map (fun p => (p.2, p.1 + 1))).get? i =
    (entries.get? i).map (fun e => (e, i + 1))
  rw [List.get?_map, List.get?_enum]
  cases entries.get? i <;> rfl

/-- C9 counterexample: a non-ok response whose body parses with an empty
detail string is reported with the supplied fallback message, not with the
parsed (empty) server detail, because the source combines them with the
JavaScript truthiness operator. -/
theorem handleResponse_counterexample :
    handleResponse ⟨500, some "", "body"⟩ "Failed to create session" =
      Except.error (ApiFailure.httpError "Failed to create session") ∧
    handleResponse ⟨500, some "", "body"⟩ "Failed to create session" ≠
      Except.error (ApiFailure.httpError "") := by
  refine ⟨rfl, ?_⟩
  intro h
  exact absurd (ApiFailure.httpError.inj (Except.error.inj h)) (by decide)

/-- C9 (amended): the handler throws RateLimitError iff the status is 429; an
ok response returns the parsed body; any other non-ok response carries the
parsed detail when it is a non-empty string, and the supplied fallback message
when no detail parses or the detail is the empty string. -/
theorem handleResponse_spec (r : HttpResponse) (m : String) :
    (handleResponse r m = Except.error ApiFailure.rateLimit ↔ r.status = 429) ∧
    (respOk r = true → handleResponse r m = Except.ok r.body) ∧
    (r.status ≠ 429 → respOk r = false →
      ((∀ d, r.detail = some d → d ≠ "" →
          handleResponse r m = Except.error (ApiFailure.httpError d)) ∧
        ((r.detail = none ∨ r.detail = some "") →
          handleResponse r m = Except.error (ApiFailure.httpError m)))) := by
  refine ⟨?_, ?_, ?_⟩
  · constructor
    · intro h
      by_contra h429
      rw [handleResponse, if_neg h429] at h
      by_cases hok : respOk r = false
      · rw [if_pos hok] at h
        exact ApiFailure.noConfusion (Except.error.inj h)
      · rw [if_neg hok] at h
        exact Except.noConfusion h
    · intro h
      rw [handleResponse, if_pos h]
  · intro hok
    have h429 : r.status ≠ 429 := by
      have h2 : r.status ≤ 299 := by
        have := (Bool.and_eq_true _ _).mp hok
        exact of_decide_eq_true this.2
      omega
    rw [handleResponse, if_neg h429, hok]
    simp
  · intro h429 hok
    constructor
    · intro d hd hne
      rw [handleResponse, if_neg h429, if_pos hok, hd]
      simp [hne]
    · rintro (hd | hd) <;> rw [handleResponse, if_neg h429, if_pos hok, hd] <;> simp

/-- Witness for the amended handleResponse theorem at concrete responses. -/
theorem handleResponse_spec_witness :
    handleResponse ⟨404, some "not found", "b"⟩ "fb" =
      Except.error (ApiFailure.httpError "not found") ∧
    handleResponse ⟨500, none, "b"⟩ "fb" = Except.error (ApiFailure.httpError "fb") ∧
    handleResponse ⟨200, none, "payload"⟩ "fb" = Except.ok "payload" ∧
    handleResponse ⟨429, none, "b"⟩ "fb" = Except.error ApiFailure.rateLimit :=
  ⟨((handleResponse_spec ⟨404, some "not found", "b"⟩ "fb").2.2 (by decide) (by decide)).1
      "not found" rfl (by decide),
   ((handleResponse_spec ⟨500, none, "b"⟩ "fb").2.2 (by decide) (by decide)).2 (Or.inl rfl),
   (handleResponse_spec ⟨200, none, "payload"⟩ "fb").2.1 (by decide),
   (handleResponse_spec ⟨429, none, "b"⟩ "fb").1.mpr rfl⟩

/-- A single produced cluster that passes the pictographic test is returned
unchanged by extraction. -/
lemma extract_of_single (M : GraphemeModel) (s : List Char)
    (h1 : M.seg s = [s]) (h2 : containsPicto M s = true) :
    extractFirstEmoji M s = s := by
  have hs : s ≠ [] := by
    intro hnil
    rw [hnil, M.seg_nil] at h1
    exact List.noConfusion h1
  rw [extractFirstEmoji, if_neg hs, h1, List.find?_cons_of_pos _ h2]

/-- Characterization of acceptance: a string is valid iff it is its own single
grapheme cluster and contains a pictographic scalar. -/
lemma isValidEmoji_iff (M : GraphemeModel) (s : List Char) :
    isValidEmoji M s = true ↔ (M.seg s = [s] ∧ containsPicto M s = true) := by
  constructor
  · intro h
    rw [isValidEmoji, Bool.and_eq_true, decide_eq_true_iff, decide_eq_true_iff] at h
    obtain ⟨hne, heq⟩ := h
    rw [extractFirstEmoji, if_neg hne] at heq
    cases hfind : (M.seg s).find? (fun g => containsPicto M g) with
    | none => rw [hfind] at heq; exact absurd heq hne
    | some g =>
      rw [hfind] at heq
      have hmem : g ∈ M.seg s := List.mem_of_find?_eq_some hfind
      have hpic : containsPicto M g = true := List.find?_some hfind
      have hseg : M.seg g = [g] := M.seg_single s g hmem
      rw [heq]
      exact ⟨hseg, hpic⟩
  · rintro ⟨h1, h2⟩
    have hs : s ≠ [] := by
      intro hnil
      rw [hnil, M.seg_nil] at h1
      exact List.noConfusion h1
    rw [isValidEmoji, Bool.and_eq_true, decide_eq_true_iff, decide_eq_true_iff]
    exact ⟨hs, (extract_of_single M s h1 h2).symm⟩

/-- C1: validation accepts a string iff it is non-empty and equal to its own
extraction, i.e. iff it is exactly one grapheme cluster containing an
Extended_Pictographic scalar; extraction is idempotent; every valid
single-grapheme pictographic string is returned unchanged by extraction; and
validation fails for every empty, multi-grapheme, or non-pictographic
string. -/
theorem isValidEmoji_spec (M : GraphemeModel) (s : List Char) :
    (isValidEmoji M s = true ↔ (s ≠ [] ∧ s = extractFirstEmoji M s)) ∧
    (isValidEmoji M s = true ↔ (M.seg s = [s] ∧ containsPicto M s = true)) ∧
    extractFirstEmoji M (extractFirstEmoji M s) = extractFirstEmoji M s ∧
    (M.seg s = [s] → containsPicto M s = true → extractFirstEmoji M s = s) ∧
    isValidEmoji M [] = false ∧
    (2 ≤ (M.seg s).length → isValidEmoji M s = false) ∧
    (containsPicto M s = false → isValidEmoji M s = false) := by
  refine ⟨?_, isValidEmoji_iff M s, ?_, extract_of_single M s, ?_, ?_, ?_⟩
  · rw [isValidEmoji, Bool.and_eq_true, decide_eq_true_iff, decide_eq_true_iff]
  · by_cases hs : s = []
    · rw [hs]
      have h0 : extractFirstEmoji M [] = [] := by rw [extractFirstEmoji, if_pos rfl]
      rw [h0, h0]
    · cases hfind : (M.seg s).find? (fun g => containsPicto M g) with
      | none =>
        have h0 : extractFirstEmoji M s = [] := by rw [extractFirstEmoji, if_neg hs, hfind]
        rw [h0, extractFirstEmoji, if_pos rfl]
      | some g =>
        have h0 : extractFirstEmoji M s = g := by rw [extractFirstEmoji, if_neg hs, hfind]
        rw [h0]
        exact extract_of_single M g
          (M.seg_single s g (List.mem_of_find?_eq_some hfind)) (List.find?_some hfind)
  · rw [isValidEmoji]
    simp
  · intro hlen
    by_contra hvalid
    rw [Bool.not_eq_false, isValidEmoji_iff] at hvalid
    rw [hvalid.1] at hlen
    simp at hlen
  · intro hpic
    by_contra hvalid
    rw [Bool.not_eq_false, isValidEmoji_iff] at hvalid
    rw [hvalid.2] at hpic
    exact Bool.noConfusion hpic

/-- Witness for the validation theorem on the concrete scalar-per-cluster
model: the pictographic string "!" is valid and fixed by extraction, and the
non-pictographic string "x" is rejected. -/
theorem isValidEmoji_spec_witness :
    isValidEmoji scalarSeg ['!'] = true ∧
    extractFirstEmoji scalarSeg ['!'] = ['!'] ∧
    isValidEmoji scalarSeg ['x'] = false ∧
    isValidEmoji scalarSeg ['!', '!'] = false :=
  ⟨(isValidEmoji_spec scalarSeg ['!']).2.1.mpr ⟨by decide, by decide⟩,
   (isValidEmoji_spec scalarSeg ['!']).2.2.2.1 (by decide) (by decide),
   (isValidEmoji_spec scalarSeg ['x']).2.2.2.2.2.2 (by decide),
   (isValidEmoji_spec scalarSeg ['!', '!']).2.2.2.2.2.1 (by decide)⟩

/-- findSome? only depends on the values of its function on the list. -/
lemma findSome?_congr {α β : Type} (l : List α) (f g : α → Option β)
    (h : ∀ a ∈ l, f a = g a) : l.findSome? f = l.findSome? g := by
  induction l with
  | nil => rfl
  | cons a t ih =>
    rw [List.findSome?_cons, List.findSome?_cons, h a (List.mem_cons_self a t)]
    cases g a with
    | some b => rfl
    | none => exact ih fun x hx => h x (List.mem_cons_of_mem a hx)

/-- A first-match scan of a list is the same as scanning its positions in
order and testing the element at each position. -/
lemma find?_eq_range_scan (L : List String) (captured : String → Bool) :
    L.find? (fun e => !captured e) =
      (List.range L.length).findSome? (fun k =>
        match L.get? k with
        | some e => if captured e then none else some e
        | none => none) := by
  induction L with
  | nil => rfl
  | cons a t ih =>
    rw [List.length_cons, List.range_succ_eq_map, List.findSome?_cons]
    simp only [List.get?_cons_zero]
    by_cases hc : captured a
    · rw [if_pos hc, List.find?_cons_of_neg _ (by simp [hc]), List.findSome?_map, ih]
      exact findSome?_congr _ _ _ (fun k _ => rfl)
    · rw [if_neg hc, List.find?_cons_of_pos _ (by simp [hc])]

/-- Membership in the claimed scan order is membership in the emoji list. -/
lemma mem_nextScanOrder (emojis : List String) (current : String) (a : String) :
    a ∈ nextScanOrder emojis current ↔ a ∈ emojis := by
  unfold nextScanOrder
  exact List.mem_rotate

/-- The embedded handleNext loop picks exactly the first uncaptured emoji of
the rotated scan order. -/
lemma handleNext_eq_scan (emojis : List String) (captured : String → Bool) (current : String) :
    handleNext emojis captured current =
      (nextScanOrder emojis current).find? (fun e => !captured e) := by
  unfold nextScanOrder
  rw [find?_eq_range_scan, List.length_rotate]
  unfold handleNext
  cases hidx : emojis.findIdx? (fun e => e == current) with
  | none =>
    simp only [hidx]
    refine findSome?_congr _ _ _ (fun k hk => ?_)
    have hklt : k < emojis.length := List.mem_range.mp hk
    rw [List.get?_rotate hklt]
    have hidxeq : ((-1 : Int) + (k : Int) + 1).toNat % emojis.length =
        (k + 0) % emojis.length := by
      have h1 : ((-1 : Int) + (k : Int) + 1).toNat = k + 0 := by omega
      rw [h1]
    rw [hidxeq]
  | some i =>
    simp only [hidx]
    refine findSome?_congr _ _ _ (fun k hk => ?_)
    have hklt : k < emojis.length := List.mem_range.mp hk
    rw [List.get?_rotate hklt]
    have hidxeq : (((i : Nat) : Int) + (k : Int) + 1).toNat % emojis.length =
        (k + (i + 1)) % emojis.length := by
      have h1 : (((i : Nat) : Int) + (k : Int) + 1).toNat = k + (i + 1) := by omega
      rw [h1]
    rw [hidxeq]

/-- C8: advancing to the next glyph is exactly a first-uncaptured scan of the
emoji list starting after the current index and wrapping around; whenever an
uncaptured emoji exists it selects an uncaptured member of the list, and when
every emoji is captured it selects nothing and the modal closes. -/
theorem handleNext_spec (emojis : List String) (captured : String → Bool) (current : String) :
    handleNext emojis captured current =
      (nextScanOrder emojis current).find? (fun e => !captured e) ∧
    ((∃ e ∈ emojis, captured e = false) →
      ∃ e, handleNext emojis captured current = some e ∧ e ∈ emojis ∧ captured e = false) ∧
    ((∀ e ∈ emojis, captured e = true) → handleNext emojis captured current = none) := by
  have hmain := handleNext_eq_scan emojis captured current
  refine ⟨hmain, ?_, ?_⟩
  · rintro ⟨e, he, hce⟩
    cases hf : (nextScanOrder emojis current).find? (fun x => !captured x) with
    | none =>
      exfalso
      have hnone := List.find?_eq_none.mp hf e ((mem_nextScanOrder emojis current e).mpr he)
      simp [hce] at hnone
    | some x =>
      refine ⟨x, hmain.trans hf, ?_, ?_⟩
      · exact (mem_nextScanOrder emojis current x).mp (List.mem_of_find?_eq_some hf)
      · have hx := List.find?_some hf
        simpa using hx
  · intro hall
    rw [hmain, List.find?_eq_none]
    intro x hx
    simp [hall x ((mem_nextScanOrder emojis current x).mp hx)]

/-- Witness for the handleNext theorem at a concrete gallery state. -/
theorem handleNext_spec_witness :
    (∃ e, handleNext ["a", "b", "c"] (fun e => e == "b") "a" = some e ∧
      e ∈ ["a", "b", "c"] ∧ (fun e => e == "b") e = false) ∧
    handleNext ["a", "b", "c"] (fun _ => true) "a" = none :=
  ⟨(handleNext_spec ["a", "b", "c"] (fun e => e == "b") "a").2.1 ⟨"c", by decide, by decide⟩,
   (handleNext_spec ["a", "b", "c"] (fun _ => true) "a").2.2 (fun e _ => rfl)⟩

/-- isPrefixOf is the existence of a completing suffix. -/
lemma isPrefixOf_true_iff (a b : List Char) :
    a.isPrefixOf b = true ↔ ∃ t, a ++ t = b := by
  induction a generalizing b with
  | nil =>
    simp [List.isPrefixOf]
  | cons c a' ih =>
    cases b with
    | nil => simp [List.isPrefixOf]
    | cons d b' =>
      rw [List.isPrefixOf, Bool.and_eq_true, beq_iff_eq, ih]
      constructor
      · rintro ⟨rfl, t, rfl⟩
        exact ⟨t, rfl⟩
      · rintro ⟨t, ht⟩
        rw [List.cons_append] at ht
        obtain ⟨rfl, ht'⟩ := List.cons.inj ht
        exact ⟨rfl, t, ht'⟩

/-- The session-cookie pattern is the cookie name followed by '='. -/
lemma sessionPat_eq : sessionPat = SESSION_COOKIE_NAME ++ ['='] := rfl

/-- If a pattern of the form a ++ "=" occurs as a prefix of a string of the
form n ++ "=" ++ w, where neither a nor n contains '=', then a = n. -/
lemma name_eq_of_pat (a : List Char) :
    ∀ n w : List Char, '=' ∉ a → '=' ∉ n →
      (∃ t, (a ++ ['=']) ++ t = n ++ '=' :: w) → a = n := by
  induction a with
  | nil =>
    rintro n w _ hn ⟨t, ht⟩
    cases n with
    | nil => rfl
    | cons x n' =>
      simp only [List.nil_append, List.cons_append] at ht
      obtain ⟨hx, _⟩ := List.cons.inj ht
      exact absurd (hx ▸ List.mem_cons_self x n') hn
  | cons c a' ih =>
    rintro n w ha hn ⟨t, ht⟩
    cases n with
    | nil =>
      simp only [List.cons_append, List.nil_append] at ht
      obtain ⟨hc, _⟩ := List.cons.inj ht
      exact absurd (show '=' ∈ c :: a' by rw [hc]; exact List.mem_cons_self _ _) ha
    | cons x n' =>
      simp only [List.cons_append] at ht
      obtain ⟨rfl, ht'⟩ := List.cons.inj ht
      have ha' : '=' ∉ a' := fun h => ha (List.mem_cons_of_mem _ h)
      have hn' : '=' ∉ n' := fun h => hn (List.mem_cons_of_mem _ h)
      rw [ih n' w ha' hn' ⟨t, ht'⟩]

/-- The pattern cannot fire at the start of a cookie pair whose name is not
the session-cookie name. -/
lemma matchSessionAt_none_of_pair (n w : List Char) (hn : '=' ∉ n)
    (hne : n ≠ SESSION_COOKIE_NAME) :
    matchSessionAt (n ++ '=' :: w) = none := by
  have hp : sessionPat.isPrefixOf (n ++ '=' :: w) = false := by
    rw [Bool.eq_false_iff]
    intro h
    obtain ⟨t, ht⟩ := (isPrefixOf_true_iff _ _).mp h
    rw [sessionPat_eq] at ht
    exact hne (name_eq_of_pat SESSION_COOKIE_NAME n w (by decide) hn ⟨t, ht⟩).symm
  rw [matchSessionAt, hp]
  simp

/-- The pattern fires on the serialized session cookie itself, capturing
exactly the stored value. -/
lemma matchSessionAt_target (id tail : List Char) (hid : id ≠ []) (hsemi : ';' ∉ id)
    (htail : tail = [] ∨ ∃ t, tail = ';' :: t) :
    matchSessionAt (sessionPat ++ id ++ tail) = some id := by
  have hp : sessionPat.isPrefixOf (sessionPat ++ id ++ tail) = true :=
    (isPrefixOf_true_iff _ _).mpr ⟨id ++ tail, by rw [List.append_assoc]⟩
  rw [matchSessionAt, hp]
  have hdrop : (sessionPat ++ id ++ tail).drop sessionPat.length = id ++ tail := by
    rw [List.append_assoc, List.drop_left]
  rw [hdrop]
  have htake : (id ++ tail).takeWhile (fun c => decide (c ≠ ';')) = id := by
    rw [List.takeWhile_append_of_pos (fun a ha => by
      simp only [decide_eq_true_iff]
      exact fun hsem => hsemi (hsem ▸ ha))]
    rcases htail with rfl | ⟨t, rfl⟩
    · simp
    · rw [List.takeWhile_cons]
      simp
  rw [htake]
  simp [hid]

/-- A match at the very start of the searched string is returned at once. -/
lemma scan_start (cs v : List Char) (hcs : cs ≠ []) (h : matchSessionAt cs = some v) :
    scanSession true cs = some v := by
  cases cs with
  | nil => exact absurd rfl hcs
  | cons c rest =>
    rw [scanSession, if_pos rfl, h]

/-- Scanning passes over a non-empty space-free block on which the pattern
does not fire at the block start. -/
lemma scan_space_free (pre suf : List Char) (b : Bool) (hne : pre ≠ [])
    (hsp : ' ' ∉ pre) (h1 : b = true → matchSessionAt (pre ++ suf) = none) :
    scanSession b (pre ++ suf) = scanSession false suf := by
  induction pre generalizing b with
  | nil => exact absurd rfl hne
  | cons c pre' ih =>
    have hcsp : c ≠ ' ' := fun h => hsp (h ▸ List.mem_cons_self c pre')
    have hstep : scanSession b ((c :: pre') ++ suf) = scanSession false (pre' ++ suf) := by
      rw [List.cons_append, scanSession]
      cases b with
      | false => rw [if_neg (by simp), if_neg hcsp]
      | true =>
        rw [if_pos rfl, ← List.cons_append, h1 rfl, if_neg hcsp]
    rw [hstep]
    cases hpre' : pre' with
    | nil => rw [List.nil_append]
    | cons d pre'' =>
      rw [← hpre']
      exact ih false (by rw [hpre']; exact List.cons_ne_nil d pre'')
        (fun h => hsp (List.mem_cons_of_mem c h))
        (fun hfalse => Bool.noConfusion hfalse)

/-- Scanning a "; " separator tries the pattern right after the space. -/
lemma scan_sep (suf : List Char) :
    scanSession false (';' :: ' ' :: suf) =
      match matchSessionAt suf with
      | some v => some v
      | none => scanSession false suf := by
  rw [scanSession]
  rw [if_neg (by simp), if_neg (by decide)]
  rw [scanSession, if_neg (by simp), if_pos rfl]

/-- Every serialized non-empty jar starts with its first name followed by
'='. -/
lemma serializeJar_shape (q : List Char × List Char) (rest : List (List Char × List Char)) :
    ∃ w, serializeJar (q :: rest) = q.1 ++ '=' :: w := by
  cases rest with
  | nil => exact ⟨q.2, rfl⟩
  | cons r rest' =>
    refine ⟨q.2 ++ ';' :: ' ' :: serializeJar (r :: rest'), ?_⟩
    rw [serializeJar]
    rw [List.append_assoc]
    rfl

/-- Serialization distributes over the concatenation of non-empty jars with a
"; " separator in between. -/
lemma serializeJar_append (bs cs : List (List Char × List Char))
    (hbs : bs ≠ []) (hcs : cs ≠ []) :
    serializeJar (bs ++ cs) = serializeJar bs ++ ';' :: ' ' :: serializeJar cs := by
  induction bs with
  | nil => exact absurd rfl hbs
  | cons p bs' ih =>
    cases bs' with
    | nil =>
      cases cs with
      | nil => exact absurd rfl hcs
      | cons q cs' => rfl
    | cons p2 bs'' =>
      have e1 : (p :: p2 :: bs'') ++ cs = p :: p2 :: (bs'' ++ cs) := rfl
      rw [e1]
      simp only [serializeJar]
      rw [show p2 :: (bs'' ++ cs) = (p2 :: bs'') ++ cs from rfl,
        ih (List.cons_ne_nil p2 bs'')]
      simp [List.append_assoc]

/-- Scanning walks over serialized cookies with other names and fires on the
target block that follows them. -/
lemma scan_serialize (bs : List (List Char × List Char)) (target v : List Char) (b : Bool)
    (hbs : bs ≠ [])
    (hwf : ∀ p ∈ bs, GoodName p.1 ∧ GoodValue p.2 ∧ p.1 ≠ SESSION_COOKIE_NAME)
    (hm : matchSessionAt target = some v) :
    scanSession b (serializeJar bs ++ ';' :: ' ' :: target) = some v := by
  induction bs generalizing b with
  | nil => exact absurd rfl hbs
  | cons p bs' ih =>
    obtain ⟨⟨hpn1, hpn2, hpn3, hpn4⟩, ⟨hpv1, hpv2⟩, hpne⟩ :=
      hwf p (List.mem_cons_self p bs')
    have hpairne : p.1 ++ '=' :: p.2 ≠ [] :=
      List.append_ne_nil_of_left_ne_nil hpn1 _
    have hpairsp : ' ' ∉ p.1 ++ '=' :: p.2 := by
      intro h
      rcases List.mem_append.mp h with h | h
      · exact hpn3 h
      · rcases List.mem_cons.mp h with h | h
        · exact absurd h (by decide)
        · exact hpv2 h
    cases bs' with
    | nil =>
      rw [serializeJar]
      rw [scan_space_free _ _ b hpairne hpairsp (fun _ => ?side1), scan_sep, hm]
      case side1 =>
        rw [List.append_assoc, List.cons_append]
        exact matchSessionAt_none_of_pair p.1 _ hpn4 hpne
    | cons q bs'' =>
      have e2 : serializeJar (p :: q :: bs'') ++ ';' :: ' ' :: target =
          (p.1 ++ '=' :: p.2) ++
            (';' :: ' ' :: (serializeJar (q :: bs'') ++ ';' :: ' ' :: target)) := by
        rw [serializeJar]
        simp [List.append_assoc]
      rw [e2]
      rw [scan_space_free _ _ b hpairne hpairsp (fun _ => ?side2)]
      case side2 =>
        rw [List.append_assoc, List.cons_append]
        exact matchSessionAt_none_of_pair p.1 _ hpn4 hpne
      rw [scan_sep]
      obtain ⟨w, hw⟩ := serializeJar_shape q bs''
      have hq := hwf q (List.mem_cons_of_mem p (List.mem_cons_self q bs''))
      have hnone : matchSessionAt (serializeJar (q :: bs'') ++ ';' :: ' ' :: target) = none := by
        rw [hw, List.append_assoc, List.cons_append]
        exact matchSessionAt_none_of_pair q.1 _ hq.1.2.2.2 hq.2.2
      rw [hnone]
      exact ih false (List.cons_ne_nil q bs'') (fun x hx => hwf x (List.mem_cons_of_mem p hx))

/-- For a session id without ';', the written assignment string parses back
to the session-cookie name and the id. -/
lemma setSessionCookie_eq (jar : List (List Char × List Char)) (id : List Char)
    (hsemi : ';' ∉ id) :
    setSessionCookie jar id = setCookie jar SESSION_COOKIE_NAME id := by
  simp only [setSessionCookie]
  have hattrs : ("; path=/; max-age=" ++ toString COOKIE_MAX_AGE ++ "; SameSite=Lax").data =
      ';' :: " path=/; max-age=604800; SameSite=Lax".data := by rfl
  rw [hattrs]
  have hpair : ((SESSION_COOKIE_NAME ++ '=' :: id) ++
      ';' :: " path=/; max-age=604800; SameSite=Lax".data).takeWhile
        (fun c => decide (c ≠ ';')) = SESSION_COOKIE_NAME ++ '=' :: id := by
    rw [List.takeWhile_append_of_pos ?hall]
    case hall =>
      intro a ha
      rw [decide_eq_true_iff]
      rcases List.mem_append.mp ha with ha | ha
      · intro heq
        exact absurd (heq ▸ ha) (by decide)
      · rcases List.mem_cons.mp ha with rfl | ha
        · decide
        · intro heq
          exact hsemi (heq ▸ ha)
    rw [List.takeWhile_cons]
    simp
  rw [hpair]
  have hname : (SESSION_COOKIE_NAME ++ '=' :: id).takeWhile
      (fun c => decide (c ≠ '=')) = SESSION_COOKIE_NAME := by
    rw [List.takeWhile_append_of_pos ?hall2]
    case hall2 =>
      intro a ha
      rw [decide_eq_true_iff]
      intro heq
      exact absurd (heq ▸ ha) (by decide)
    rw [List.takeWhile_cons]
    simp
  rw [hname]
  have hvalue : (SESSION_COOKIE_NAME ++ '=' :: id).drop (SESSION_COOKIE_NAME.length + 1) =
      id := by
    have hsplit : SESSION_COOKIE_NAME ++ '=' :: id = (SESSION_COOKIE_NAME ++ ['=']) ++ id := by
      simp
    rw [hsplit]
    exact List.drop_left' (by simp)
  rw [hvalue]

/-- Writing the session cookie splits the jar around the freshly stored pair,
with every other cookie well formed and differently named. -/
lemma setCookie_decomp (jar : List (List Char × List Char)) (id : List Char)
    (hwf : WellFormedJar jar) :
    ∃ before after,
      setCookie jar SESSION_COOKIE_NAME id = before ++ (SESSION_COOKIE_NAME, id) :: after ∧
      (∀ p ∈ before, GoodName p.1 ∧ GoodValue p.2 ∧ p.1 ≠ SESSION_COOKIE_NAME) ∧
      (∀ p ∈ after, GoodName p.1 ∧ GoodValue p.2 ∧ p.1 ≠ SESSION_COOKIE_NAME) := by
  obtain ⟨hpw, hgood⟩ := hwf
  rw [setCookie]
  by_cases hany : jar.any (fun p => decide (p.1 = SESSION_COOKIE_NAME)) = true
  · rw [if_pos hany]
    obtain ⟨m, hmem, hm⟩ := List.any_eq_true.mp hany
    rw [decide_eq_true_iff] at hm
    obtain ⟨bf, af, rfl⟩ := List.append_of_mem hmem
    rw [List.pairwise_append] at hpw
    obtain ⟨hpw1, hpw2, hpw3⟩ := hpw
    rw [List.pairwise_cons] at hpw2
    have hbf : ∀ x ∈ bf, x.1 ≠ SESSION_COOKIE_NAME := fun x hx heq =>
      (hpw3 x hx m (List.mem_cons_self m af)) (heq.trans hm.symm)
    have haf : ∀ x ∈ af, x.1 ≠ SESSION_COOKIE_NAME := fun x hx heq =>
      (hpw2.1 x hx) (hm.trans heq.symm)
    refine ⟨bf, af, ?_, ?_, ?_⟩
    · rw [List.map_append, List.map_cons]
      have h1 : bf.map (fun p => if p.1 = SESSION_COOKIE_NAME then
          (SESSION_COOKIE_NAME, id) else p) = bf :=
        (List.map_congr_left (fun x hx => if_neg (hbf x hx))).trans (List.map_id bf)
      have h2 : (if m.1 = SESSION_COOKIE_NAME then (SESSION_COOKIE_NAME, id) else m) =
          (SESSION_COOKIE_NAME, id) := if_pos hm
      have h3 : af.map (fun p => if p.1 = SESSION_COOKIE_NAME then
          (SESSION_COOKIE_NAME, id) else p) = af :=
        (List.map_congr_left (fun x hx => if_neg (haf x hx))).trans (List.map_id af)
      rw [h1, h2, h3]
    · intro p hp
      have hmem2 : p ∈ bf ++ m :: af := List.mem_append_left _ hp
      exact ⟨(hgood p hmem2).1, (hgood p hmem2).2, hbf p hp⟩
    · intro p hp
      have hmem2 : p ∈ bf ++ m :: af :=
        List.mem_append_right _ (List.mem_cons_of_mem m hp)
      exact ⟨(hgood p hmem2).1, (hgood p hmem2).2, haf p hp⟩
  · rw [if_neg hany]
    have hnone : ∀ p ∈ jar, p.1 ≠ SESSION_COOKIE_NAME := by
      intro p hp heq
      exact hany (List.any_eq_true.mpr ⟨p, hp, decide_eq_true heq⟩)
    exact ⟨jar, [], rfl,
      fun p hp => ⟨(hgood p hp).1, (hgood p hp).2, hnone p hp⟩, by simp⟩

/-- C10: over the cookie string model, for every non-empty session id with no
';' character and no leading or trailing whitespace, and for every well-formed
browser jar, reading the session cookie immediately after setSessionCookie(id)
returns exactly id. -/
theorem setSessionCookie_roundTrip (jar : List (List Char × List Char)) (id : List Char)
    (hwf : WellFormedJar jar) (hne : id ≠ []) (hsemi : ';' ∉ id)
    (_hlead : id.head? ≠ some ' ') (_htrail : id.getLast? ≠ some ' ') :
    getSessionCookie (setSessionCookie jar id) = some id := by
  rw [setSessionCookie_eq jar id hsemi]
  obtain ⟨before, after, hdec, hbf, haf⟩ := setCookie_decomp jar id hwf
  rw [hdec, getSessionCookie]
  have hmt : matchSessionAt (serializeJar ((SESSION_COOKIE_NAME, id) :: after)) = some id := by
    cases after with
    | nil =>
      have hform : serializeJar [(SESSION_COOKIE_NAME, id)] = sessionPat ++ id ++ [] := by
        rw [serializeJar, sessionPat_eq]
        simp
      rw [hform]
      exact matchSessionAt_target id [] hne hsemi (Or.inl rfl)
    | cons q after' =>
      have hform : serializeJar ((SESSION_COOKIE_NAME, id) :: q :: after') =
          sessionPat ++ id ++ (';' :: ' ' :: serializeJar (q :: after')) := by
        rw [serializeJar, sessionPat_eq]
        simp
      rw [hform]
      exact matchSessionAt_target id _ hne hsemi (Or.inr ⟨_, rfl⟩)
  cases before with
  | nil =>
    rw [List.nil_append]
    refine scan_start _ _ ?_ hmt
    obtain ⟨w, hw⟩ := serializeJar_shape (SESSION_COOKIE_NAME, id) after
    rw [hw]
    have hcne : ((SESSION_COOKIE_NAME, id) : List Char × List Char).1 ≠ [] := by
      show SESSION_COOKIE_NAME ≠ []
      decide
    exact List.append_ne_nil_of_left_ne_nil hcne _
  | cons p before' =>
    rw [serializeJar_append _ _ (List.cons_ne_nil p before') (List.cons_ne_nil _ after)]
    exact scan_serialize (p :: before') _ id true (List.cons_ne_nil p before') hbf hmt

/-- Witness for the cookie round trip at a concrete jar and session id. -/
theorem setSessionCookie_roundTrip_witness :
    getSessionCookie (setSessionCookie [("other".data, "v1".data)] "abc123".data) =
      some "abc123".data :=
  setSessionCookie_roundTrip [("other".data, "v1".data)] "abc123".data
    (by constructor
        · decide
        · intro p hp
          rw [List.mem_singleton] at hp
          subst hp
          exact ⟨⟨by decide, by decide, by decide, by decide⟩, by decide, by decide⟩)
    (by decide) (by decide) (by decide) (by decide)

end Tomoji
